import Mathlib

/-!
Verification of the sidecar extraction pipeline.

Shallow embedding of the repository's core modules:
  * sidecar/extraction/filter.py   (content filter)
  * sidecar/extraction/differ.py   (change-set extractor)
  * sidecar/extraction/reader.py   (transcript line loop)
  * sidecar/hooks/common.py        (filesystem lock guard)

Python strings are embedded as List Char (one element per character, so
List.length matches Python len).  Python dicts with fixed recognised keys
and defaulted .get lookups are embedded as structures whose fields default
to the Python defaults.  External collaborators (git subprocesses, the
filesystem, json.loads) are passed in as explicit oracle parameters.
-/

/-! ## Python string helpers -/

/-- Whitespace characters stripped by Python str.strip(). -/
def pyIsSpace (c : Char) : Bool :=
  c = ' ' ∨ c = '\t' ∨ c = '\n' ∨ c = '\r' ∨ c = '\x0b' ∨ c = '\x0c'

/-- Embedding of Python str.strip(): drop whitespace from both ends. -/
def pyStrip (l : List Char) : List Char :=
  ((l.dropWhile pyIsSpace).reverse.dropWhile pyIsSpace).reverse

/-- Embedding of Python str.split(sep) for a one-character separator:
splits on every occurrence, keeping empty pieces. -/
def pySplit (c : Char) : List Char → List (List Char)
  | [] => [[]]
  | a :: rest =>
    if a = c then [] :: pySplit c rest
    else
      match pySplit c rest with
      | [] => [[a]]
      | l :: ls => (a :: l) :: ls

/-- Embedding of Python str.splitlines() for newline-only content:
like split on a newline, but a trailing newline adds no empty final piece
and an empty string yields no lines. -/
def pySplitlines (l : List Char) : List (List Char) :=
  let p := pySplit '\n' l
  if p.getLast? = some [] then p.dropLast else p

/-! ## Data model (sidecar/extraction/models.py)

A content block is a Python dict; the code only ever reads the keys below,
each with a defaulted .get, so the dict is embedded as a structure with
those keys and the Python defaults.  The source nests tool parameters
under an "input" key; those nested lookups are flattened to fields with
an input_ prefix-mark in the name. -/

structure ContentBlock where
  type : String := ""
  text : List Char := []
  name : String := ""
  input_file_path : List Char := []
  input_command : List Char := []
  input_description : List Char := []
  file_path : List Char := []
  description : List Char := []
  command_preview : List Char := []
  tool_use_id : String := ""
deriving DecidableEq

inductive RawContent where
  | str (s : List Char)
  | blocks (bs : List ContentBlock)
  | otherVal
deriving DecidableEq

/-- The fields of one parsed JSONL record that reader.py reads.
role is none when message.role is absent (reader defaults it to the
record type); content defaults to the empty string payload. -/
structure RawRecord where
  type : String := ""
  uuid : String := ""
  parentUuid : String := ""
  timestamp : String := ""
  role : Option String := none
  content : RawContent := RawContent.str []
  summary : List Char := []
deriving DecidableEq

/-- The raw payload reference a SessionMessage carries: either the parsed
record it came from, or the empty dict the filter substitutes. -/
inductive RawPayload where
  | empty
  | ref (r : RawRecord)
deriving DecidableEq

structure SessionMessage where
  type : String
  uuid : String := ""
  parent_uuid : String := ""
  timestamp : String := ""
  role : String := ""
  content : List ContentBlock := []
  raw : RawPayload := RawPayload.empty
deriving DecidableEq

structure FileDiff where
  path : List Char
  status : String
  additions : Nat := 0
  deletions : Nat := 0
  diff_text : List Char := []
deriving DecidableEq

structure CodeDiff where
  files : List FileDiff := []
  total_additions : Nat := 0
  total_deletions : Nat := 0
  truncated : Bool := false
  source : String := "git"
deriving DecidableEq

structure FilterStats where
  original_count : Nat := 0
  kept_count : Nat := 0
  removed_progress : Nat := 0
  removed_file_history : Nat := 0
  truncated_messages : Nat := 0
  stripped_tool_content : Nat := 0
deriving DecidableEq

structure FilteredSession where
  session_id : String
  messages : List SessionMessage := []
  stats : FilterStats := {}
deriving DecidableEq

/-! ## Content filter (sidecar/extraction/filter.py) -/

def SHORT_ASSISTANT_THRESHOLD : Nat := 50
def LONG_ASSISTANT_THRESHOLD : Nat := 500
def TRUNCATE_TO : Nat := 300
def BASH_COMMAND_PREVIEW : Nat := 100

def FILE_TOOLS : List String := ["Write", "Edit", "Read"]

def REMOVE_TYPES : List String := ["progress", "file-history-snapshot"]

/-- The three-character ellipsis marker appended by truncation. -/
def ellipsisMarker : List Char := ['.', '.', '.']

/-- One iteration of the block loop in filter.py, lines 106-155: every
branch appends exactly one block to the result and possibly bumps a
counter, so it is embedded as a per-block function returning the updated
stats and the produced block. -/
def filterBlock (stats : FilterStats) (block : ContentBlock) :
    FilterStats × ContentBlock :=
  if block.type = "text" then
    if block.text.length > LONG_ASSISTANT_THRESHOLD then
      ({ stats with truncated_messages := stats.truncated_messages + 1 },
       { type := "text", text := block.text.take TRUNCATE_TO ++ ellipsisMarker })
    else (stats, block)
  else if block.type = "tool_use" then
    let stats :=
      { stats with stripped_tool_content := stats.stripped_tool_content + 1 }
    if block.name ∈ FILE_TOOLS then
      (stats, { type := "tool_use", name := block.name,
                file_path := block.input_file_path })
    else if block.name = "Bash" then
      (stats, { type := "tool_use", name := block.name,
                description := block.input_description,
                command_preview := block.input_command.take BASH_COMMAND_PREVIEW })
    else
      (stats, { type := "tool_use", name := block.name })
  else if block.type = "tool_result" then
    (stats, { type := "tool_result", tool_use_id := block.tool_use_id })
  else (stats, block)

/-- filter.py _filter_assistant_content: fold filterBlock over the blocks,
threading the stats. -/
def filter_assistant_content (stats : FilterStats) :
    List ContentBlock → FilterStats × List ContentBlock
  | [] => (stats, [])
  | b :: rest =>
    let sb := filterBlock stats b
    let srest := filter_assistant_content sb.1 rest
    (srest.1, sb.2 :: srest.2)

/-- The filtered blocks of an assistant message.  filterBlock's block
output never reads the stats, so the block list produced by
filter_assistant_content is independent of the incoming stats; this is
that list, computed from zeroed stats. -/
def filteredBlocks (content : List ContentBlock) : List ContentBlock :=
  (filter_assistant_content {} content).2

/-- The survival test of filter.py lines 60-72 on the already-filtered
blocks: an empty block list is dropped, and a list consisting solely of
text blocks all shorter than 50 characters is dropped. -/
def survivesBlocks (fc : List ContentBlock) : Bool :=
  if fc = [] then false
  else
    let textOnly := fc.filter (fun b => b.type == "text")
    if fc.length == textOnly.length &&
        textOnly.all (fun b => decide (b.text.length < SHORT_ASSISTANT_THRESHOLD))
    then false
    else true

/-- The message loop of filter_session (filter.py lines 38-88), threading
stats and accumulating the kept messages in order. -/
def filterLoop (stats : FilterStats) :
    List SessionMessage → FilterStats × List SessionMessage
  | [] => (stats, [])
  | msg :: rest =>
    if msg.type ∈ REMOVE_TYPES then
      let stats :=
        if msg.type = "progress" then
          { stats with removed_progress := stats.removed_progress + 1 }
        else
          { stats with removed_file_history := stats.removed_file_history + 1 }
      filterLoop stats rest
    else if msg.type = "summary" then
      let r := filterLoop stats rest
      (r.1, msg :: r.2)
    else if msg.role = "user" then
      let r := filterLoop stats rest
      (r.1, msg :: r.2)
    else if msg.role = "assistant" then
      let sfc := filter_assistant_content stats msg.content
      if survivesBlocks sfc.2 then
        let r := filterLoop sfc.1 rest
        (r.1,
         { type := msg.type, uuid := msg.uuid, parent_uuid := msg.parent_uuid,
           timestamp := msg.timestamp, role := msg.role, content := sfc.2,
           raw := RawPayload.empty } :: r.2)
      else filterLoop sfc.1 rest
    else filterLoop stats rest

/-- filter.py filter_session. -/
def filter_session (session_id : String) (messages : List SessionMessage) :
    FilteredSession :=
  let init : FilterStats := { original_count := messages.length }
  let r := filterLoop init messages
  { session_id := session_id,
    messages := r.2,
    stats := { r.1 with kept_count := r.2.length } }

/-- The surviving-assistant construction of filter.py lines 74-84: same
identifying fields, filtered content, empty raw payload. -/
def strippedAssistant (m : SessionMessage) : SessionMessage :=
  { type := m.type, uuid := m.uuid, parent_uuid := m.parent_uuid,
    timestamp := m.timestamp, role := m.role,
    content := filteredBlocks m.content, raw := RawPayload.empty }

/-! ### Classification of one input message by the filter branches -/

def isProgressMsg (m : SessionMessage) : Bool := m.type == "progress"

def isFileHistoryMsg (m : SessionMessage) : Bool :=
  m.type == "file-history-snapshot"

/-- True when the filter keeps the message (verbatim or stripped). -/
def keptByFilter (m : SessionMessage) : Bool :=
  if m.type ∈ REMOVE_TYPES then false
  else if m.type = "summary" then true
  else if m.role = "user" then true
  else if m.role = "assistant" then survivesBlocks (filteredBlocks m.content)
  else false

/-- True when the message neither appears in the output nor in a removal
counter: dropped assistant messages and unrecognised type/role
combinations (filter.py lines 60-72 and 87-88). -/
def silentlyDropped (m : SessionMessage) : Bool :=
  if m.type ∈ REMOVE_TYPES then false
  else if m.type = "summary" then false
  else if m.role = "user" then false
  else if m.role = "assistant" then !survivesBlocks (filteredBlocks m.content)
  else true

/-! ## Change-set extractor (sidecar/extraction/differ.py) -/

def MAX_DIFF_CHARS : Nat := 32000

/-- differ.py _build_file_diff: classify status from header annotation
lines and count addition/deletion marker lines, excluding the +++ and
--- file-header lines; the file's diff text is the newline-join of its
lines. -/
def build_file_diff (path : List Char) (lines : List (List Char)) : FileDiff :=
  let acc := lines.foldl
    (fun (acc : Nat × Nat × String) line =>
      if ("new file".toList).isPrefixOf line then (acc.1, acc.2.1, "added")
      else if ("deleted file".toList).isPrefixOf line then
        (acc.1, acc.2.1, "deleted")
      else if ("rename".toList).isPrefixOf line then (acc.1, acc.2.1, "renamed")
      else if ['+'].isPrefixOf line ∧ ¬ ("+++".toList).isPrefixOf line then
        (acc.1 + 1, acc.2.1, acc.2.2)
      else if ['-'].isPrefixOf line ∧ ¬ ("---".toList).isPrefixOf line then
        (acc.1, acc.2.1 + 1, acc.2.2)
      else acc)
    (0, 0, "modified")
  { path := path, status := acc.2.2, additions := acc.1, deletions := acc.2.1,
    diff_text := List.intercalate ['\n'] lines }

/-- The re.search of differ.py line 117 on a newline-free line: the
leftmost position where the letter b, a slash and at least one further
character follow gives the remainder of the line; otherwise no match. -/
def regexBSlash : List Char → Option (List Char)
  | 'b' :: '/' :: c :: rest => some (c :: rest)
  | _ :: rest => regexBSlash rest
  | [] => none

/-- The line loop of differ.py _parse_diff (lines 112-125): group lines
into per-file chunks at each diff header, flushing the pending chunk
through build_file_diff; lines before the first header are dropped. -/
def parseDiffLoop :
    List (List Char) → Option (List Char) → List (List Char) → List FileDiff
  | [], none, _ => []
  | [], some f, cur => [build_file_diff f cur]
  | line :: rest, cf, cur =>
    if ("diff --git".toList).isPrefixOf line then
      let newFile := (regexBSlash line).getD ("unknown".toList)
      match cf with
      | some f => build_file_diff f cur :: parseDiffLoop rest (some newFile) [line]
      | none => parseDiffLoop rest (some newFile) [line]
    else
      match cf with
      | some f => parseDiffLoop rest (some f) (cur ++ [line])
      | none => parseDiffLoop rest none cur

/-- differ.py _parse_diff: cap the raw diff text at MAX_DIFF_CHARS
(setting the truncated flag), split into lines, group per file, and sum
the per-file counts into the totals. -/
def parse_diff (diff_text : List Char) : CodeDiff :=
  let truncated := diff_text.length > MAX_DIFF_CHARS
  let dt := if diff_text.length > MAX_DIFF_CHARS
    then diff_text.take MAX_DIFF_CHARS else diff_text
  let files := parseDiffLoop (pySplit '\n' dt) none []
  { files := files,
    total_additions := (files.map (fun f => f.additions)).sum,
    total_deletions := (files.map (fun f => f.deletions)).sum,
    truncated := truncated,
    source := "git" }

/-- Accumulator of the status loop in differ.py _status_to_diff. -/
structure StatusAcc where
  files : List FileDiff := []
  total_add : Nat := 0
  total_del : Nat := 0
  total_chars : Nat := 0
deriving DecidableEq

/-- The synthetic unified-diff text built by differ.py lines 205-211 for
one added/modified file: the file headers followed by the joined
plus-marked lines. -/
def synthDiffText (filepath : List Char) (diff_lines : List (List Char)) :
    List Char :=
  ("diff --git a/".toList) ++ filepath ++ (" b/".toList)
    ++ filepath ++ ['\n'] ++ ("new file".toList) ++ ['\n']
    ++ ("--- /dev/null".toList) ++ ['\n'] ++ ("+++ b/".toList)
    ++ filepath ++ ['\n'] ++ List.intercalate ['\n'] diff_lines

/-- The body read of differ.py lines 199-214: the synthesized diff text
and line count of the file at filepath, or empty when the file is
missing, not a regular file, or the read raises OSError (all absorbed by
the source). -/
def statusBody (fs : List Char → Option (List Char)) (filepath : List Char) :
    List Char × Nat :=
  match fs filepath with
  | some content =>
    let file_lines := pySplitlines content
    (synthDiffText filepath (file_lines.map (fun l => '+' :: l)),
     file_lines.length)
  | none => ([], 0)

/-- One iteration of the line loop of differ.py _status_to_diff (lines
178-226).  fs is the filesystem oracle backing the file reads. -/
def statusStep (fs : List Char → Option (List Char)) (acc : StatusAcc)
    (line : List Char) : StatusAcc :=
  if line.length < 4 then acc
  else
    let status_code := pyStrip (line.take 2)
    let filepath := pyStrip (line.drop 3)
    let status : String :=
      if status_code = ("??".toList) ∨ status_code = ['A'] then "added"
      else if status_code = ['D'] then "deleted"
      else if status_code = ['R'] then "renamed"
      else "modified"
    let body : List Char × Nat :=
      if (status = "added" ∨ status = "modified") ∧
          acc.total_chars < MAX_DIFF_CHARS then
        statusBody fs filepath
      else ([], 0)
    { files := acc.files ++
        [{ path := filepath, status := status, additions := body.2,
           deletions := 0, diff_text := body.1 }],
      total_add := acc.total_add + body.2,
      total_del := acc.total_del + 0,
      total_chars := acc.total_chars + body.1.length }

/-- differ.py _status_to_diff: synthesize a change set from porcelain
status output, reading current file contents for added/modified paths
while total_chars stays below the budget. -/
def status_to_diff (status_output : List Char)
    (fs : List Char → Option (List Char)) : CodeDiff :=
  let acc := (pySplit '\n' (pyStrip status_output)).foldl (statusStep fs) {}
  { files := acc.files,
    total_additions := acc.total_add,
    total_deletions := acc.total_del,
    truncated := acc.total_chars ≥ MAX_DIFF_CHARS,
    source := "git" }

/-! ### Tool-call reconstruction -/

/-- Lookup in the embedding of a Python dict as an insertion-ordered
association list. -/
def dictGet (d : List (List Char × String)) (k : List Char) : Option String :=
  (d.find? (fun kv => kv.1 == k)).map (fun kv => kv.2)

/-- Assignment in the embedding of a Python dict: update the value in
place when the key is present, otherwise append the binding. -/
def dictSet (d : List (List Char × String)) (k : List Char) (v : String) :
    List (List Char × String) :=
  if (d.find? (fun kv => kv.1 == k)).isSome then
    d.map (fun kv => if kv.1 == k then (kv.1, v) else kv)
  else d ++ [(k, v)]

/-- The effective path of a tool_use block in differ.py line 250: the
nested input file_path if non-empty, otherwise the top-level
file_path. -/
def effPath (b : ContentBlock) : List Char :=
  if b.input_file_path ≠ [] then b.input_file_path else b.file_path

/-- One iteration of the inner block loop of differ.py _tool_call_diff
(lines 245-259). -/
def toolStep (seen : List (List Char × String)) (b : ContentBlock) :
    List (List Char × String) :=
  if b.type ≠ "tool_use" then seen
  else
    let path := effPath b
    if path = [] then seen
    else if b.name = "Write" then
      if (dictGet seen path).isSome then seen else dictSet seen path "added"
    else if b.name = "Edit" then
      dictSet seen path ((dictGet seen path).getD "modified")
    else seen

/-- The seen dict built by differ.py _tool_call_diff over all assistant
messages, in transcript order. -/
def tool_call_seen (messages : List SessionMessage) :
    List (List Char × String) :=
  messages.foldl
    (fun acc msg =>
      if msg.role ≠ "assistant" then acc else msg.content.foldl toolStep acc)
    []

/-- differ.py _tool_call_diff. -/
def tool_call_diff (messages : List SessionMessage) : CodeDiff :=
  { files := (tool_call_seen messages).map
      (fun kv => { path := kv.1, status := kv.2 }),
    source := "tool_calls" }

/-! ### Git strategy and entry point -/

/-- Oracle for the version-control collaborator used by differ.py
_git_diff.  A subprocess result is a return code and stdout text; none
models an exception escaping the call (timeout on the unguarded runs, or
the caught failure of the first diff).  fs backs the file reads of
_status_to_diff. -/
structure GitEnv where
  isDir : Bool
  revParseOk : Bool
  diffHead1 : Option (Int × List Char)
  diffHead : Option (Int × List Char)
  statusRun : Option (Int × List Char)
  fs : List Char → Option (List Char)

/-- differ.py _git_diff: raise unless the path is a directory inside a
git repository; take the first diff text produced by diff-HEAD~1 then
diff-HEAD, fall back to porcelain status synthesis, and return an empty
git change set when nothing reports changes.  An error value stands for
an exception escaping _git_diff (all are caught by get_diff). -/
def git_diff (env : GitEnv) : Except Unit CodeDiff :=
  if ¬ env.isDir then Except.error ()
  else if ¬ env.revParseOk then Except.error ()
  else
    let dt1 : List Char :=
      match env.diffHead1 with
      | some rcOut =>
        if rcOut.1 = 0 ∧ pyStrip rcOut.2 ≠ [] then rcOut.2 else []
      | none => []
    if dt1 ≠ [] then Except.ok (parse_diff dt1)
    else
      match env.diffHead with
      | none => Except.error ()
      | some rcOut =>
        let dt2 : List Char := if rcOut.1 = 0 then rcOut.2 else []
        if dt2 ≠ [] then Except.ok (parse_diff dt2)
        else
          match env.statusRun with
          | none => Except.error ()
          | some rcOut2 =>
            if rcOut2.1 = 0 ∧ pyStrip rcOut2.2 ≠ [] then
              Except.ok (status_to_diff rcOut2.2 env.fs)
            else Except.ok { source := "git" }

/-- differ.py get_diff: try the git strategy and absorb every failure,
falling back to tool-call reconstruction when messages are available and
to an empty tool_calls change set otherwise.  The Python messages
parameter defaults to None; None and the empty list take the same
branch, so both are embedded as the empty list. -/
def get_diff (env : GitEnv) (messages : List SessionMessage) : CodeDiff :=
  match git_diff env with
  | Except.ok d => d
  | Except.error _ =>
    if messages ≠ [] then tool_call_diff messages
    else { source := "tool_calls" }

/-! ## Transcript reader line loop (sidecar/extraction/reader.py) -/

inductive Marker where
  | unreadable
  | malformed
  | stamped (t : ℚ)
deriving DecidableEq

/-- The lock directory contents: lock-file name to marker state. -/
structure LocksDir where
  files : String → Option Marker

/-- hooks/common.py is_locked at current time now: false when the marker
file is missing, unreadable or malformed; otherwise true exactly when
the recorded age is strictly below max_age_seconds. -/
def is_locked (d : LocksDir) (now : ℚ) (session_id : String)
    (max_age_seconds : ℚ) : Bool :=
  match d.files (session_id ++ ".lock") with
  | none => false
  | some Marker.unreadable => false
  | some Marker.malformed => false
  | some (Marker.stamped t) => decide (now - t < max_age_seconds)

/-- hooks/common.py remove_lock: best-effort unlink of the session's
marker file.  unlinkOk is the oracle for the outcome of the unlink call:
true when it succeeds (missing_ok makes an absent marker a success, and
the entry is gone afterwards), false when it raises OSError — the
surrounding try swallows the exception, remove_lock returns normally,
and the directory is left unchanged, so the marker may persist. -/
def remove_lock (d : LocksDir) (session_id : String) (unlinkOk : Bool) :
    LocksDir :=
  if unlinkOk then
    { files := fun p =>
        if p = session_id ++ ".lock" then none else d.files p }
  else d

/-! ## Auxiliary definitions used by the statements -/

/-- Total length of the diff text carried across a change set's files. -/
def aggregateDiffLen (cd : CodeDiff) : Nat :=
  (cd.files.map (fun f => f.diff_text.length)).sum

/-- The accumulated character count of the status-synthesis loop of
_status_to_diff (its total_chars variable after the loop). -/
def statusAccChars (status_output : List Char)
    (fs : List Char → Option (List Char)) : Nat :=
  ((pySplit '\n' (pyStrip status_output)).foldl (statusStep fs) {}).total_chars

/-- Length of the newline-join of a list of lines. -/
def joinLen : List (List Char) → Nat
  | [] => 0
  | [l] => l.length
  | l :: rest => l.length + 1 + joinLen rest

/-- The qualifying operation a content block contributes, if any: a
Write or Edit tool_use block with a non-empty effective path yields its
name and path. -/
def blockOp (b : ContentBlock) : Option (String × List Char) :=
  if b.type = "tool_use" ∧ effPath b ≠ [] ∧
      (b.name = "Write" ∨ b.name = "Edit")
  then some (b.name, effPath b) else none

/-- Spec-side list of the qualifying file-write and file-edit tool
invocations of a transcript, in order of appearance: name and effective
path of every Write or Edit tool_use block with a non-empty path inside
an assistant message. -/
def toolOps (messages : List SessionMessage) : List (String × List Char) :=
  (messages.filter (fun m => m.role == "assistant")).flatMap
    (fun m => m.content.filterMap blockOp)

/-- The status the first qualifying operation on a path dictates, given
the operation list in order: a Write marks it added and an Edit marks it
modified; later operations are ignored. -/
def firstOpStatus (ops : List (String × List Char)) (p : List Char) :
    Option String :=
  (ops.find? (fun op => op.2 == p)).map
    (fun op => if op.1 = "Write" then "added" else "modified")

/-- Spec-side status of a path under first-classification-wins: the
first qualifying operation on the path in the transcript decides. -/
def specFirstStatus (messages : List SessionMessage) (p : List Char) :
    Option String :=
  firstOpStatus (toolOps messages) p

/-! ### Concrete inputs used by witnesses and the counterexample -/

/-- An environment in which every git interaction fails outright. -/
def failEnv : GitEnv :=
  { isDir := false, revParseOk := false, diffHead1 := none,
    diffHead := none, statusRun := none, fs := fun _ => none }

/-- A filesystem carrying one untracked file f of 32001 characters on a
single line. -/
def capFs : List Char → Option (List Char) :=
  fun p => if p = ['f'] then some (List.replicate 32001 'a') else none

/-- An environment in which both diffs are empty and porcelain status
reports the single untracked file f of capFs. -/
def capEnv : GitEnv :=
  { isDir := true, revParseOk := true,
    diffHead1 := some (0, []),
    diffHead := some (0, []),
    statusRun := some (0, ['?', '?', ' ', 'f']),
    fs := capFs }

/-- A 501-character text block. -/
def text501Block : ContentBlock :=
  { type := "text", text := List.replicate 501 'a' }

/-- A 50-character text block. -/
def text50Block : ContentBlock :=
  { type := "text", text := List.replicate 50 'a' }

/-- An assistant message whose only block is 50 characters of text. -/
def msg50 : SessionMessage :=
  { type := "assistant", role := "assistant", content := [text50Block] }

/-- An assistant message carrying one Write tool invocation. -/
def toolMsg : SessionMessage :=
  { type := "assistant", uuid := "u1", parent_uuid := "p1",
    timestamp := "t1", role := "assistant",
    content := [{ type := "tool_use", name := "Write",
                  input_file_path := ("/tmp/f.py".toList) }],
    raw := RawPayload.ref {} }

/-! # Helper lemmas: the content filter -/

theorem filterBlock_snd (s t : FilterStats) (b : ContentBlock) :
    (filterBlock s b).2 = (filterBlock t b).2 := by
  unfold filterBlock
  split_ifs <;> rfl

theorem filter_assistant_content_snd (s : FilterStats)
    (c : List ContentBlock) :
    (filter_assistant_content s c).2 = filteredBlocks c := by
  unfold filteredBlocks
  induction c generalizing s with
  | nil => rfl
  | cons b rest ih =>
    simp only [filter_assistant_content]
    rw [filterBlock_snd s {} b, ih (filterBlock s b).1, ih (filterBlock {} b).1]

theorem filterBlock_counts (s : FilterStats) (b : ContentBlock) :
    (filterBlock s b).1.removed_progress = s.removed_progress ∧
    (filterBlock s b).1.removed_file_history = s.removed_file_history ∧
    (filterBlock s b).1.original_count = s.original_count ∧
    (filterBlock s b).1.kept_count = s.kept_count := by
  unfold filterBlock
  split_ifs <;> simp

theorem filter_assistant_content_counts (s : FilterStats)
    (c : List ContentBlock) :
    (filter_assistant_content s c).1.removed_progress = s.removed_progress ∧
    (filter_assistant_content s c).1.removed_file_history
      = s.removed_file_history ∧
    (filter_assistant_content s c).1.original_count = s.original_count ∧
    (filter_assistant_content s c).1.kept_count = s.kept_count := by
  induction c generalizing s with
  | nil => exact ⟨rfl, rfl, rfl, rfl⟩
  | cons b rest ih =>
    simp only [filter_assistant_content]
    obtain ⟨h1, h2, h3, h4⟩ := ih (filterBlock s b).1
    obtain ⟨g1, g2, g3, g4⟩ := filterBlock_counts s b
    exact ⟨h1.trans g1, h2.trans g2, h3.trans g3, h4.trans g4⟩

/-- C2: a text content block processed by the assistant block filter is
replaced, when longer than 500 characters, by its first 300 characters
followed by the three-character ellipsis marker — 303 characters in all —
with truncated_messages incremented; a block of at most 500 characters
passes through unchanged with no counter incremented. -/
theorem c2_text_truncation (s : FilterStats) (b : ContentBlock)
    (htype : b.type = "text") :
    (b.text.length > 500 →
      filterBlock s b =
        ({ s with truncated_messages := s.truncated_messages + 1 },
         { type := "text", text := b.text.take 300 ++ ellipsisMarker })
      ∧ (filterBlock s b).2.text.length = 303)
    ∧ (b.text.length ≤ 500 → filterBlock s b = (s, b)) := by
  unfold filterBlock
  rw [if_pos htype]
  constructor
  · intro hlen
    have hgt : b.text.length > LONG_ASSISTANT_THRESHOLD := hlen
    rw [if_pos hgt]
    refine ⟨rfl, ?_⟩
    simp only [TRUNCATE_TO, ellipsisMarker, List.length_append,
      List.length_take, List.length_cons, List.length_nil]
    omega
  · intro hle
    have hng : ¬ b.text.length > LONG_ASSISTANT_THRESHOLD := by
      unfold LONG_ASSISTANT_THRESHOLD
      omega
    rw [if_neg hng]

/-- Witness for C2: the 501-character block is truncated to exactly 303
characters. -/
theorem c2_text_truncation_witness :
    (filterBlock {} text501Block).2.text.length = 303 :=
  ((c2_text_truncation {} text501Block rfl).1
    (by norm_num [text501Block])).2

theorem survivesBlocks_iff (fc : List ContentBlock) :
    survivesBlocks fc = true ↔
      ((∃ b ∈ fc, b.type ≠ "text") ∨
        ∃ b ∈ fc, b.type = "text" ∧ 50 ≤ b.text.length) := by
  unfold survivesBlocks
  by_cases hfc : fc = []
  · subst hfc; simp
  · rw [if_neg hfc]
    set textOnly := fc.filter (fun b => b.type == "text") with hto
    cases hA : (fc.length == textOnly.length &&
        textOnly.all
          (fun b => decide (b.text.length < SHORT_ASSISTANT_THRESHOLD))) with
    | true =>
      simp only [hA, if_true]
      have hand := hA
      rw [Bool.and_eq_true, beq_iff_eq, List.all_eq_true] at hand
      obtain ⟨hlen, hshort⟩ := hand
      have halltext : ∀ b ∈ fc, (fun b => b.type == "text") b = true :=
        List.filter_length_eq_length.mp hlen.symm
      constructor
      · intro hfalse; exact absurd hfalse (by simp)
      · rintro (⟨b, hb, hbt⟩ | ⟨b, hb, hbt, hblen⟩)
        · exact absurd (beq_iff_eq.mp (halltext b hb)) hbt
        · have hmem : b ∈ textOnly := by
            rw [hto, List.mem_filter]
            exact ⟨hb, by simp [hbt]⟩
          have := hshort b hmem
          rw [decide_eq_true_iff] at this
          unfold SHORT_ASSISTANT_THRESHOLD at this
          omega
    | false =>
      simp only [hA, if_false]
      constructor
      · intro _
        rw [Bool.and_eq_false_iff] at hA
        cases hA with
        | inl hlen =>
          rw [beq_eq_false_iff_ne] at hlen
          have : ¬ ∀ b ∈ fc, (fun b => b.type == "text") b = true := by
            intro hall
            exact hlen (List.filter_length_eq_length.mpr hall).symm
          push_neg at this
          obtain ⟨b, hb, hbt⟩ := this
          exact Or.inl ⟨b, hb, by simpa using hbt⟩
        | inr hshort =>
          rw [List.all_eq_false] at hshort
          obtain ⟨b, hb, hbs⟩ := hshort
          rw [hto, List.mem_filter] at hb
          obtain ⟨hbf, hbt⟩ := hb
          refine Or.inr ⟨b, hbf, by simpa using hbt, ?_⟩
          have hlt : ¬ b.text.length < SHORT_ASSISTANT_THRESHOLD := by
            simpa using hbs
          unfold SHORT_ASSISTANT_THRESHOLD at hlt
          omega
      · intro _; rfl

/-- C3: after block-level filtering, an assistant message appears in the
filter's output iff its filtered content contains at least one non-text
block or at least one text block of at least 50 characters. -/
theorem c3_assistant_survival (sid : String) (msg : SessionMessage)
    (hrole : msg.role = "assistant") (hrem : msg.type ∉ REMOVE_TYPES)
    (hsum : msg.type ≠ "summary") :
    ((filter_session sid [msg]).messages ≠ [] ↔
      ((∃ b ∈ filteredBlocks msg.content, b.type ≠ "text") ∨
        ∃ b ∈ filteredBlocks msg.content,
          b.type = "text" ∧ 50 ≤ b.text.length)) := by
  have huser : msg.role ≠ "user" := by rw [hrole]; decide
  rw [← survivesBlocks_iff]
  unfold filter_session
  simp only [filterLoop]
  rw [if_neg hrem, if_neg hsum, if_neg huser, if_pos hrole,
    filter_assistant_content_snd]
  by_cases hs : survivesBlocks (filteredBlocks msg.content) = true
  · rw [if_pos hs]
    simp [hs]
  · rw [if_neg hs]
    simp [hs]

/-- Witness for C3: the assistant message whose only block is 50
characters of text is kept. -/
theorem c3_assistant_survival_witness :
    (filter_session "s" [msg50]).messages ≠ [] :=
  (c3_assistant_survival "s" msg50 rfl (by decide) (by decide)).mpr
    (Or.inr ⟨text50Block, by decide, rfl, by decide⟩)

theorem filterLoop_counts (msgs : List SessionMessage) (s : FilterStats) :
    (filterLoop s msgs).1.original_count = s.original_count ∧
    (filterLoop s msgs).1.kept_count = s.kept_count ∧
    (filterLoop s msgs).1.removed_progress
      = s.removed_progress + msgs.countP isProgressMsg ∧
    (filterLoop s msgs).1.removed_file_history
      = s.removed_file_history + msgs.countP isFileHistoryMsg ∧
    (filterLoop s msgs).2.length = msgs.countP keptByFilter := by
  induction msgs generalizing s with
  | nil => refine ⟨rfl, rfl, ?_, ?_, ?_⟩ <;> simp [filterLoop]
  | cons m rest ih =>
    simp only [filterLoop]
    by_cases hrem : m.type ∈ REMOVE_TYPES
    · rw [if_pos hrem]
      have hkm : keptByFilter m = false := by
        unfold keptByFilter; rw [if_pos hrem]
      by_cases hp : m.type = "progress"
      · rw [if_pos hp]
        have hfm : isFileHistoryMsg m = false := by
          simp [isFileHistoryMsg, hp]
        have hpm : isProgressMsg m = true := by simp [isProgressMsg, hp]
        obtain ⟨i1, i2, i3, i4, i5⟩ :=
          ih { s with removed_progress := s.removed_progress + 1 }
        refine ⟨i1, i2, ?_, ?_, ?_⟩ <;>
          simp [List.countP_cons, hpm, hfm, hkm, i3, i4, i5] <;> omega
      · rw [if_neg hp]
        have hf : m.type = "file-history-snapshot" := by
          rcases (by simpa [REMOVE_TYPES] using hrem :
            m.type = "progress" ∨ m.type = "file-history-snapshot") with h | h
          · exact absurd h hp
          · exact h
        have hfm : isFileHistoryMsg m = true := by simp [isFileHistoryMsg, hf]
        have hpm : isProgressMsg m = false := by simp [isProgressMsg, hp]
        obtain ⟨i1, i2, i3, i4, i5⟩ :=
          ih { s with removed_file_history := s.removed_file_history + 1 }
        refine ⟨i1, i2, ?_, ?_, ?_⟩ <;>
          simp [List.countP_cons, hpm, hfm, hkm, i3, i4, i5] <;> omega
    · rw [if_neg hrem]
      have hp : m.type ≠ "progress" := by
        intro h; exact hrem (by simp [REMOVE_TYPES, h])
      have hf : m.type ≠ "file-history-snapshot" := by
        intro h; exact hrem (by simp [REMOVE_TYPES, h])
      have hpm : isProgressMsg m = false := by simp [isProgressMsg, hp]
      have hfm : isFileHistoryMsg m = false := by simp [isFileHistoryMsg, hf]
      by_cases hsum : m.type = "summary"
      · rw [if_pos hsum]
        have hkm : keptByFilter m = true := by
          unfold keptByFilter; rw [if_neg hrem, if_pos hsum]
        obtain ⟨i1, i2, i3, i4, i5⟩ := ih s
        refine ⟨i1, i2, ?_, ?_, ?_⟩ <;>
          simp [List.countP_cons, hpm, hfm, hkm, i3, i4, i5]
      · rw [if_neg hsum]
        by_cases huser : m.role = "user"
        · rw [if_pos huser]
          have hkm : keptByFilter m = true := by
            unfold keptByFilter
            rw [if_neg hrem, if_neg hsum, if_pos huser]
          obtain ⟨i1, i2, i3, i4, i5⟩ := ih s
          refine ⟨i1, i2, ?_, ?_, ?_⟩ <;>
            simp [List.countP_cons, hpm, hfm, hkm, i3, i4, i5]
        · rw [if_neg huser]
          by_cases hass : m.role = "assistant"
          · rw [if_pos hass]
            have hsnd := filter_assistant_content_snd s m.content
            obtain ⟨f1, f2, f3, f4⟩ :=
              filter_assistant_content_counts s m.content
            obtain ⟨i1, i2, i3, i4, i5⟩ :=
              ih (filter_assistant_content s m.content).1
            have hkm : keptByFilter m
                = survivesBlocks (filteredBlocks m.content) := by
              unfold keptByFilter
              rw [if_neg hrem, if_neg hsum, if_neg huser, if_pos hass]
            cases hsb : survivesBlocks (filteredBlocks m.content) with
            | true =>
              rw [hsnd, if_pos hsb]
              refine ⟨?_, ?_, ?_, ?_, ?_⟩ <;>
                simp [List.countP_cons, hkm, hsb, hpm, hfm, i1, i2, i3, i4,
                  i5, f1, f2, f3, f4] <;> omega
            | false =>
              rw [hsnd, if_neg (by simp [hsb])]
              refine ⟨?_, ?_, ?_, ?_, ?_⟩ <;>
                simp [List.countP_cons, hkm, hsb, hpm, hfm, i1, i2, i3, i4,
                  i5, f1, f2, f3, f4] <;> omega
          · rw [if_neg hass]
            have hkm : keptByFilter m = false := by
              unfold keptByFilter
              rw [if_neg hrem, if_neg hsum, if_neg huser, if_neg hass]
            obtain ⟨i1, i2, i3, i4, i5⟩ := ih s
            refine ⟨i1, i2, ?_, ?_, ?_⟩ <;>
              simp [List.countP_cons, hpm, hfm, hkm, i3, i4, i5]

theorem filterClass_partition (m : SessionMessage) :
    (if keptByFilter m then 1 else 0) + (if isProgressMsg m then 1 else 0)
      + (if isFileHistoryMsg m then 1 else 0)
      + (if silentlyDropped m then 1 else 0) = 1 := by
  by_cases hrem : m.type ∈ REMOVE_TYPES
  · have hkm : keptByFilter m = false := by
      unfold keptByFilter; rw [if_pos hrem]
    have hsd : silentlyDropped m = false := by
      unfold silentlyDropped; rw [if_pos hrem]
    rcases (by simpa [REMOVE_TYPES] using hrem :
        m.type = "progress" ∨ m.type = "file-history-snapshot") with hp | hf
    · have hnf : m.type ≠ "file-history-snapshot" := by rw [hp]; decide
      simp [isProgressMsg, isFileHistoryMsg, hp, hnf, hkm, hsd]
    · have hnp : m.type ≠ "progress" := by rw [hf]; decide
      simp [isProgressMsg, isFileHistoryMsg, hf, hnp, hkm, hsd]
  · have hp : m.type ≠ "progress" := by
      intro h; exact hrem (by simp [REMOVE_TYPES, h])
    have hf : m.type ≠ "file-history-snapshot" := by
      intro h; exact hrem (by simp [REMOVE_TYPES, h])
    have hpm : isProgressMsg m = false := by simp [isProgressMsg, hp]
    have hfm : isFileHistoryMsg m = false := by simp [isFileHistoryMsg, hf]
    by_cases hsum : m.type = "summary"
    · have hkm : keptByFilter m = true := by
        unfold keptByFilter; rw [if_neg hrem, if_pos hsum]
      have hsd : silentlyDropped m = false := by
        unfold silentlyDropped; rw [if_neg hrem, if_pos hsum]
      simp [hkm, hsd, hpm, hfm]
    · by_cases huser : m.role = "user"
      · have hkm : keptByFilter m = true := by
          unfold keptByFilter; rw [if_neg hrem, if_neg hsum, if_pos huser]
        have hsd : silentlyDropped m = false := by
          unfold silentlyDropped; rw [if_neg hrem, if_neg hsum, if_pos huser]
        simp [hkm, hsd, hpm, hfm]
      · by_cases hass : m.role = "assistant"
        · have hkm : keptByFilter m
              = survivesBlocks (filteredBlocks m.content) := by
            unfold keptByFilter
            rw [if_neg hrem, if_neg hsum, if_neg huser, if_pos hass]
          have hsd : silentlyDropped m
              = !survivesBlocks (filteredBlocks m.content) := by
            unfold silentlyDropped
            rw [if_neg hrem, if_neg hsum, if_neg huser, if_pos hass]
          cases hsb : survivesBlocks (filteredBlocks m.content) <;>
            simp [hkm, hsd, hsb, hpm, hfm]
        · have hkm : keptByFilter m = false := by
            unfold keptByFilter
            rw [if_neg hrem, if_neg hsum, if_neg huser, if_neg hass]
          have hsd : silentlyDropped m = true := by
            unfold silentlyDropped
            rw [if_neg hrem, if_neg hsum, if_neg huser, if_neg hass]
          simp [hkm, hsd, hpm, hfm]

theorem countP_filter_partition (msgs : List SessionMessage) :
    msgs.length = msgs.countP keptByFilter + msgs.countP isProgressMsg
      + msgs.countP isFileHistoryMsg + msgs.countP silentlyDropped := by
  induction msgs with
  | nil => simp
  | cons m rest ih =>
    have h := filterClass_partition m
    simp only [List.countP_cons, List.length_cons]
    omega

/-- C1: for every input, original_count equals kept_count plus the two
removal counters plus the number of silently dropped messages (dropped
assistant messages and unrecognised type/role combinations); kept_count
is the length of the returned sequence, and original_count dominates
kept_count. -/
theorem c1_filter_counting (sid : String) (msgs : List SessionMessage) :
    (filter_session sid msgs).stats.original_count
      = (filter_session sid msgs).stats.kept_count
        + (filter_session sid msgs).stats.removed_progress
        + (filter_session sid msgs).stats.removed_file_history
        + msgs.countP silentlyDropped ∧
    (filter_session sid msgs).stats.kept_count
      = (filter_session sid msgs).messages.length ∧
    (filter_session sid msgs).stats.kept_count
      ≤ (filter_session sid msgs).stats.original_count := by
  obtain ⟨h1, h2, h3, h4, h5⟩ :=
    filterLoop_counts msgs { original_count := msgs.length }
  have hpart := countP_filter_partition msgs
  unfold filter_session
  refine ⟨?_, ?_, ?_⟩
  · simp only []
    simp [h1, h3, h4, h5]
    omega
  · simp
  · simp only []
    simp [h1, h5]
    omega

theorem filterLoop_mem (msgs : List SessionMessage) (s : FilterStats)
    (m2 : SessionMessage) (hm : m2 ∈ (filterLoop s msgs).2) :
    (∃ m ∈ msgs, m2 = m ∧ (m.type = "summary" ∨ m.role = "user")) ∨
    (∃ m ∈ msgs, m.role = "assistant" ∧ m.type ∉ REMOVE_TYPES ∧
      m.type ≠ "summary" ∧ m.role ≠ "user" ∧ m2 = strippedAssistant m) := by
  induction msgs generalizing s with
  | nil => simp [filterLoop] at hm
  | cons m rest ih =>
    simp only [filterLoop] at hm
    by_cases hrem : m.type ∈ REMOVE_TYPES
    · rw [if_pos hrem] at hm
      rcases ih _ hm with ⟨n, hn, he, hc⟩ | ⟨n, hn, hc⟩
      · exact Or.inl ⟨n, List.mem_cons_of_mem m hn, he, hc⟩
      · exact Or.inr ⟨n, List.mem_cons_of_mem m hn, hc⟩
    · rw [if_neg hrem] at hm
      by_cases hsum : m.type = "summary"
      · rw [if_pos hsum] at hm
        rcases List.mem_cons.mp hm with he | htail
        · exact Or.inl ⟨m, List.mem_cons_self m rest, he, Or.inl hsum⟩
        · rcases ih _ htail with ⟨n, hn, he, hc⟩ | ⟨n, hn, hc⟩
          · exact Or.inl ⟨n, List.mem_cons_of_mem m hn, he, hc⟩
          · exact Or.inr ⟨n, List.mem_cons_of_mem m hn, hc⟩
      · rw [if_neg hsum] at hm
        by_cases huser : m.role = "user"
        · rw [if_pos huser] at hm
          rcases List.mem_cons.mp hm with he | htail
          · exact Or.inl ⟨m, List.mem_cons_self m rest, he, Or.inr huser⟩
          · rcases ih _ htail with ⟨n, hn, he, hc⟩ | ⟨n, hn, hc⟩
            · exact Or.inl ⟨n, List.mem_cons_of_mem m hn, he, hc⟩
            · exact Or.inr ⟨n, List.mem_cons_of_mem m hn, hc⟩
        · rw [if_neg huser] at hm
          by_cases hass : m.role = "assistant"
          · rw [if_pos hass] at hm
            rw [filter_assistant_content_snd] at hm
            by_cases hsb : survivesBlocks (filteredBlocks m.content) = true
            · rw [if_pos hsb] at hm
              rcases List.mem_cons.mp hm with he | htail
              · refine Or.inr ⟨m, List.mem_cons_self m rest, hass, hrem,
                  hsum, huser, ?_⟩
                rw [he]
                simp [strippedAssistant, filter_assistant_content_snd]
              · rcases ih _ htail with ⟨n, hn, he, hc⟩ | ⟨n, hn, hc⟩
                · exact Or.inl ⟨n, List.mem_cons_of_mem m hn, he, hc⟩
                · exact Or.inr ⟨n, List.mem_cons_of_mem m hn, hc⟩
            · rw [if_neg hsb] at hm
              rcases ih _ hm with ⟨n, hn, he, hc⟩ | ⟨n, hn, hc⟩
              · exact Or.inl ⟨n, List.mem_cons_of_mem m hn, he, hc⟩
              · exact Or.inr ⟨n, List.mem_cons_of_mem m hn, hc⟩
          · rw [if_neg hass] at hm
            rcases ih _ hm with ⟨n, hn, he, hc⟩ | ⟨n, hn, hc⟩
            · exact Or.inl ⟨n, List.mem_cons_of_mem m hn, he, hc⟩
            · exact Or.inr ⟨n, List.mem_cons_of_mem m hn, hc⟩

/-- C10: every message the filter keeps that is of summary type or user
role is an unmodified input message (raw payload included), while every
surviving assistant message is a rebuilt message whose raw payload is
the empty record and whose type, uuid, parent uuid, timestamp and role
are carried over from an assistant input message, with its content the
block-filtered content of that message. -/
theorem c10_frame (sid : String) (msgs : List SessionMessage)
    (m2 : SessionMessage) (hm : m2 ∈ (filter_session sid msgs).messages) :
    ((m2.type = "summary" ∨ m2.role = "user") → m2 ∈ msgs) ∧
    (m2.type ≠ "summary" → m2.role ≠ "user" →
      m2.role = "assistant" ∧ m2.raw = RawPayload.empty ∧
      ∃ m ∈ msgs, m.role = "assistant" ∧ m2.type = m.type ∧
        m2.uuid = m.uuid ∧ m2.parent_uuid = m.parent_uuid ∧
        m2.timestamp = m.timestamp ∧
        m2.content = filteredBlocks m.content) := by
  have hm2 : m2 ∈ (filterLoop { original_count := msgs.length } msgs).2 := by
    simpa [filter_session] using hm
  rcases filterLoop_mem msgs _ m2 hm2 with
    ⟨m, hmem, he, hcond⟩ | ⟨m, hmem, hass, hrem, hsum, huser, he⟩
  · subst he
    exact ⟨fun _ => hmem,
      fun hns hnu => (hcond.elim (fun h => absurd h hns) fun h => absurd h hnu)⟩
  · subst he
    constructor
    · intro hcond
      rcases hcond with h | h
      · exact absurd h hsum
      · exact absurd h huser
    · intro _ _
      exact ⟨hass, rfl, m, hmem, hass, rfl, rfl, rfl, rfl, rfl⟩

/-- Witness for C10 at a one-message transcript holding a Write tool
invocation. -/
theorem c10_frame_witness :
    (((strippedAssistant toolMsg).type = "summary"
        ∨ (strippedAssistant toolMsg).role = "user")
      → strippedAssistant toolMsg ∈ [toolMsg]) ∧
    ((strippedAssistant toolMsg).type ≠ "summary"
      → (strippedAssistant toolMsg).role ≠ "user"
      → (strippedAssistant toolMsg).role = "assistant"
        ∧ (strippedAssistant toolMsg).raw = RawPayload.empty
        ∧ ∃ m ∈ [toolMsg], m.role = "assistant"
            ∧ (strippedAssistant toolMsg).type = m.type
            ∧ (strippedAssistant toolMsg).uuid = m.uuid
            ∧ (strippedAssistant toolMsg).parent_uuid = m.parent_uuid
            ∧ (strippedAssistant toolMsg).timestamp = m.timestamp
            ∧ (strippedAssistant toolMsg).content = filteredBlocks m.content) :=
  c10_frame "s" [toolMsg] (strippedAssistant toolMsg) (by decide)

/-- Counterexample to C8: with a freshly stamped marker and an unlink
that raises OSError (swallowed by remove_lock, common.py lines 112-115),
the marker persists and the session still reports locked after
remove_lock, refuting "after remove_lock the session reports not locked
for every max_age". -/
theorem c8_lock_counterexample :
    is_locked
      (remove_lock
        { files := fun p =>
            if p = "s.lock" then some (Marker.stamped 0) else none }
        "s" false)
      1 "s" 60 = true := by
  have hrm : remove_lock
      { files := fun p =>
          if p = "s.lock" then some (Marker.stamped 0) else none }
      "s" false
      = { files := fun p =>
          if p = "s.lock" then some (Marker.stamped 0) else none } := rfl
  rw [hrm]
  unfold is_locked
  have happ : ("s" ++ ".lock" : String) = "s.lock" := rfl
  rw [happ]
  norm_num

/-- C8 as amended: is_locked is true exactly when a stamped marker file
exists for the session whose recorded age is strictly below max_age; a
missing, unreadable or malformed marker always gives false.  remove_lock
never raises, even when the marker is absent or the unlink fails; after
a remove_lock whose unlink succeeds the session reports unlocked for
every max_age, but when the unlink raises OSError the swallowed failure
leaves the directory unchanged, so the marker may persist and the
session may still report locked. -/
theorem c8_lock_semantics (d : LocksDir) (now : ℚ) (sid : String)
    (maxAge : ℚ) :
    (is_locked d now sid maxAge = true ↔
      ∃ t, d.files (sid ++ ".lock") = some (Marker.stamped t)
        ∧ now - t < maxAge) ∧
    (∀ ma : ℚ, is_locked (remove_lock d sid true) now sid ma = false) ∧
    remove_lock d sid false = d := by
  refine ⟨?_, ?_, rfl⟩
  · unfold is_locked
    cases h : d.files (sid ++ ".lock") with
    | none => simp [h]
    | some m =>
      cases m with
      | unreadable => simp [h]
      | malformed => simp [h]
      | stamped t => simp [h]
  · intro ma
    unfold is_locked remove_lock
    simp

/-- C4: the change-set entry point always returns a change set: a
successful git strategy result is passed through, and every git failure
(not a directory, not a repository, subprocess error or timeout)
degrades to tool-call reconstruction when a transcript is available, or
to an empty tool_calls change set otherwise; no exception escapes. -/
theorem c4_get_diff_degrades (env : GitEnv)
    (messages : List SessionMessage) :
    (∀ d, git_diff env = Except.ok d → get_diff env messages = d) ∧
    (git_diff env = Except.error () →
      (get_diff env messages).source = "tool_calls" ∧
      (messages = [] → get_diff env messages = { source := "tool_calls" }) ∧
      (messages ≠ [] → get_diff env messages = tool_call_diff messages)) := by
  unfold get_diff
  cases hg : git_diff env with
  | ok d =>
    refine ⟨fun d2 h => ?_, fun h => by simp_all⟩
    rw [Except.ok.injEq] at h
    simp [h]
  | error e =>
    refine ⟨fun d2 h => by simp_all, fun _ => ?_⟩
    by_cases hm : messages = []
    · subst hm
      exact ⟨rfl, fun _ => rfl, fun hne => absurd rfl hne⟩
    · rw [if_pos hm]
      exact ⟨rfl, fun h => absurd h hm, fun _ => rfl⟩

/-- Witness for C4: with every git interaction failing and no
transcript, the result is the empty tool_calls change set. -/
theorem c4_get_diff_degrades_witness :
    get_diff failEnv [] = { source := "tool_calls" } :=
  ((c4_get_diff_degrades failEnv []).2 rfl).2.1 rfl

/-! # Helper lemmas: the tool-call dict -/

theorem dictGet_cons (kv : List Char × String)
    (rest : List (List Char × String)) (k : List Char) :
    dictGet (kv :: rest) k
      = if kv.1 == k then some kv.2 else dictGet rest k := by
  unfold dictGet
  rw [List.find?_cons]
  cases h : kv.1 == k <;> simp [h]

theorem dictGet_map_set (d : List (List Char × String)) (k : List Char)
    (v : String) (k2 : List Char) :
    dictGet (d.map (fun kv => if kv.1 == k then (kv.1, v) else kv)) k2
      = if k2 = k then (dictGet d k).map (fun _ => v) else dictGet d k2 := by
  induction d with
  | nil => by_cases h : k2 = k <;> simp [dictGet, h]
  | cons kv rest ih =>
    simp only [List.map_cons]
    simp only [beq_iff_eq] at ih
    by_cases hk : kv.1 = k
    · by_cases h2 : k2 = k
      · subst h2
        simp [dictGet_cons, hk]
      · have hkk2 : k ≠ k2 := fun hh => h2 hh.symm
        have hne : kv.1 ≠ k2 := by rw [hk]; exact hkk2
        simp [dictGet_cons, hk, hne, h2, hkk2, ih]
    · by_cases hh : kv.1 = k2
      · have h2 : k2 ≠ k := by rw [← hh]; exact fun h => hk h
        simp [dictGet_cons, hk, hh, h2]
      · simp [dictGet_cons, hk, hh, ih]

theorem dictGet_append_single (d : List (List Char × String)) (k : List Char)
    (v : String) (k2 : List Char) :
    dictGet (d ++ [(k, v)]) k2
      = match dictGet d k2 with
        | some w => some w
        | none => if k2 = k then some v else none := by
  induction d with
  | nil =>
    by_cases h : k2 = k
    · subst h; simp [dictGet_cons, dictGet]
    · have : k ≠ k2 := fun hh => h hh.symm
      simp [dictGet_cons, dictGet, this, h]
  | cons kv rest ih =>
    by_cases hh : kv.1 = k2
    · simp [List.cons_append, dictGet_cons, hh]
    · simp [List.cons_append, dictGet_cons, hh, ih]

theorem dictGet_isSome_find (d : List (List Char × String)) (k : List Char) :
    (d.find? (fun kv => kv.1 == k)).isSome = (dictGet d k).isSome := by
  unfold dictGet
  cases d.find? (fun kv => kv.1 == k) <;> simp

theorem dictGet_dictSet (d : List (List Char × String)) (k : List Char)
    (v : String) (k2 : List Char) :
    dictGet (dictSet d k v) k2 = if k2 = k then some v else dictGet d k2 := by
  unfold dictSet
  by_cases hp : (d.find? (fun kv => kv.1 == k)).isSome = true
  · rw [if_pos hp, dictGet_map_set]
    by_cases h2 : k2 = k
    · rw [if_pos h2, if_pos h2]
      rw [dictGet_isSome_find] at hp
      obtain ⟨w, hw⟩ := Option.isSome_iff_exists.mp hp
      simp [hw]
    · rw [if_neg h2, if_neg h2]
  · rw [if_neg hp, dictGet_append_single]
    rw [dictGet_isSome_find] at hp
    have hnone : dictGet d k = none := by
      cases hd : dictGet d k
      · rfl
      · rw [hd] at hp; simp at hp
    by_cases h2 : k2 = k
    · subst h2
      simp [hnone]
    · rw [if_neg h2]
      cases hd : dictGet d k2 <;> simp [hd, h2]

theorem toolStep_of_blockOp_none (seen : List (List Char × String))
    (b : ContentBlock) (h : blockOp b = none) :
    toolStep seen b = seen := by
  unfold blockOp at h
  unfold toolStep
  by_cases ht : b.type ≠ "tool_use"
  · rw [if_pos ht]
  · rw [if_neg ht]
    push_neg at ht
    by_cases hp : effPath b = []
    · rw [if_pos hp]
    · have hW : b.name ≠ "Write" := by
        intro hw
        rw [if_pos ⟨ht, hp, Or.inl hw⟩] at h
        exact Option.some_ne_none _ h
      have hE : b.name ≠ "Edit" := by
        intro he
        rw [if_pos ⟨ht, hp, Or.inr he⟩] at h
        exact Option.some_ne_none _ h
      rw [if_neg hp, if_neg hW, if_neg hE]

theorem dictGet_toolStep_of_blockOp_some (seen : List (List Char × String))
    (b : ContentBlock) (nm : String) (pa : List Char)
    (h : blockOp b = some (nm, pa)) (p : List Char) :
    dictGet (toolStep seen b) p =
      if p = pa ∧ dictGet seen p = none
      then some (if nm = "Write" then "added" else "modified")
      else dictGet seen p := by
  unfold blockOp at h
  by_cases hc : b.type = "tool_use" ∧ effPath b ≠ [] ∧
      (b.name = "Write" ∨ b.name = "Edit")
  · rw [if_pos hc, Option.some_inj, Prod.mk.injEq] at h
    obtain ⟨hn, hpa⟩ := h
    subst hn
    subst hpa
    obtain ⟨ht, hp, hne⟩ := hc
    unfold toolStep
    rw [if_neg (not_not_intro ht), if_neg hp]
    rcases hne with hW | hE
    · rw [if_pos hW, hW]
      by_cases hpres : (dictGet seen (effPath b)).isSome = true
      · rw [if_pos hpres]
        by_cases hpp : p = effPath b
        · have hnn : dictGet seen p ≠ none := by
            rw [hpp]
            exact Option.isSome_iff_ne_none.mp hpres
          rw [if_neg (fun hc => hnn hc.2)]
        · rw [if_neg (fun hc => hpp hc.1)]
      · rw [if_neg hpres]
        have hnone : dictGet seen (effPath b) = none :=
          Option.not_isSome_iff_eq_none.mp (by simpa using hpres)
        rw [dictGet_dictSet]
        by_cases hpp : p = effPath b
        · rw [if_pos hpp, if_pos ⟨hpp, by rw [hpp]; exact hnone⟩]
          simp
        · rw [if_neg hpp, if_neg (by tauto)]
    · have hWn : b.name = "Write" → False := by
        intro hw
        rw [hE] at hw
        exact absurd hw (by decide)
      rw [if_neg hWn, if_pos hE, hE]
      rw [dictGet_dictSet]
      by_cases hpp : p = effPath b
      · rw [if_pos hpp]
        cases hd : dictGet seen (effPath b) with
        | none =>
          rw [if_pos ⟨hpp, by rw [hpp]; exact hd⟩]
          simp [hd]
        | some w =>
          have hnn : dictGet seen p ≠ none := by
            rw [hpp, hd]; exact Option.some_ne_none w
          rw [if_neg (by tauto)]
          rw [hpp, hd]
          simp
      · rw [if_neg hpp, if_neg (by tauto)]
  · rw [if_neg hc] at h
    exact absurd h (Option.noConfusion)

theorem firstOpStatus_cons (op : String × List Char)
    (ops : List (String × List Char)) (p : List Char) :
    firstOpStatus (op :: ops) p
      = if op.2 == p
        then some (if op.1 = "Write" then "added" else "modified")
        else firstOpStatus ops p := by
  unfold firstOpStatus
  rw [List.find?_cons]
  cases h : op.2 == p <;> simp [h]

theorem firstOpStatus_append (a b : List (String × List Char))
    (p : List Char) :
    firstOpStatus (a ++ b) p =
      match firstOpStatus a p with
      | some w => some w
      | none => firstOpStatus b p := by
  induction a with
  | nil => simp [firstOpStatus]
  | cons op a ih =>
    rw [List.cons_append, firstOpStatus_cons, firstOpStatus_cons]
    cases h : op.2 == p with
    | true => simp
    | false => simp [ih]

theorem dictGet_foldl_toolStep (content : List ContentBlock)
    (seen : List (List Char × String)) (p : List Char) :
    dictGet (content.foldl toolStep seen) p =
      match dictGet seen p with
      | some w => some w
      | none => firstOpStatus (content.filterMap blockOp) p := by
  induction content generalizing seen with
  | nil => cases h : dictGet seen p <;> simp [h, firstOpStatus]
  | cons b rest ih =>
    simp only [List.foldl_cons, List.filterMap_cons]
    cases hb : blockOp b with
    | none =>
      rw [toolStep_of_blockOp_none seen b hb]
      exact ih seen
    | some op =>
      obtain ⟨nm, pa⟩ := op
      rw [ih (toolStep seen b),
        dictGet_toolStep_of_blockOp_some seen b nm pa hb p,
        firstOpStatus_cons]
      by_cases hpp : p = pa
      · cases hd : dictGet seen p with
        | none =>
          rw [if_pos ⟨hpp, rfl⟩]
          have hbeq : ((nm, pa).2 == p) = true := by simp [hpp]
          simp [hbeq]
        | some w =>
          rw [if_neg (fun hc => Option.some_ne_none w hc.2)]
      · rw [if_neg (fun hc => hpp hc.1)]
        cases hd : dictGet seen p with
        | none =>
          have hbeq : ((nm, pa).2 == p) = false := by
            simp
            exact fun h => hpp h.symm
          simp [hbeq]
        | some w => simp

theorem dictGet_toolSeenLoop (msgs : List SessionMessage)
    (seen : List (List Char × String)) (p : List Char) :
    dictGet (msgs.foldl (fun acc msg =>
        if msg.role ≠ "assistant" then acc
        else msg.content.foldl toolStep acc) seen) p
      = match dictGet seen p with
        | some w => some w
        | none => firstOpStatus (toolOps msgs) p := by
  induction msgs generalizing seen with
  | nil => cases h : dictGet seen p <;> simp [h, toolOps, firstOpStatus]
  | cons m rest ih =>
    simp only [List.foldl_cons]
    by_cases hr : m.role = "assistant"
    · rw [if_neg (not_not_intro hr)]
      rw [ih (m.content.foldl toolStep seen), dictGet_foldl_toolStep]
      have hto : toolOps (m :: rest)
          = m.content.filterMap blockOp ++ toolOps rest := by
        simp [toolOps, List.filter_cons, hr]
      rw [hto, firstOpStatus_append]
      cases hd : dictGet seen p with
      | some w => simp
      | none =>
        cases hf : firstOpStatus (m.content.filterMap blockOp) p <;> simp [hf]
    · rw [if_pos hr]
      rw [ih seen]
      have hto : toolOps (m :: rest) = toolOps rest := by
        have : (m.role == "assistant") = false := by simp [hr]
        simp [toolOps, List.filter_cons, this]
      rw [hto]

/-- C5: the change set reconstructed from tool invocations assigns every
path the status dictated by the first qualifying operation on it: a
first Write marks it added, an Edit of a previously unseen path marks it
modified, and no later Write or Edit changes an already-classified
path — in particular a Write followed by a later Edit of the same path
stays added. -/
theorem c5_first_classification_wins (messages : List SessionMessage)
    (p : List Char) :
    (((tool_call_diff messages).files.find? (fun f => f.path == p)).map
        (fun f => f.status))
      = specFirstStatus messages p := by
  have hmain : dictGet (tool_call_seen messages) p
      = specFirstStatus messages p := by
    have h := dictGet_toolSeenLoop messages [] p
    unfold tool_call_seen specFirstStatus
    have hnil : dictGet [] p = none := rfl
    rw [hnil] at h
    exact h
  have hfind : ∀ (d : List (List Char × String)),
      ((d.map (fun kv => ({ path := kv.1, status := kv.2 } : FileDiff))).find?
        (fun f => f.path == p)).map (fun f => f.status)
      = dictGet d p := by
    intro d
    induction d with
    | nil => rfl
    | cons kv rest ih =>
      rw [List.map_cons, List.find?_cons, dictGet_cons]
      cases h : kv.1 == p with
      | true => rfl
      | false => exact ih
  calc (((tool_call_diff messages).files.find? (fun f => f.path == p)).map
        (fun f => f.status))
      = dictGet (tool_call_seen messages) p := hfind (tool_call_seen messages)
    _ = specFirstStatus messages p := hmain

/-! # Helper lemmas: change-set totals -/

theorem statusFold_totals (fs : List Char → Option (List Char))
    (lines : List (List Char)) (acc : StatusAcc)
    (ha : acc.total_add = (acc.files.map (fun f => f.additions)).sum)
    (hd : acc.total_del = (acc.files.map (fun f => f.deletions)).sum) :
    (lines.foldl (statusStep fs) acc).total_add
      = ((lines.foldl (statusStep fs) acc).files.map
          (fun f => f.additions)).sum ∧
    (lines.foldl (statusStep fs) acc).total_del
      = ((lines.foldl (statusStep fs) acc).files.map
          (fun f => f.deletions)).sum := by
  induction lines generalizing acc with
  | nil => exact ⟨ha, hd⟩
  | cons line rest ih =>
    simp only [List.foldl_cons]
    apply ih
    · unfold statusStep
      by_cases hlen : line.length < 4
      · rw [if_pos hlen]; exact ha
      · rw [if_neg hlen]
        simp [List.map_append, List.sum_append, ha]
    · unfold statusStep
      by_cases hlen : line.length < 4
      · rw [if_pos hlen]; exact hd
      · rw [if_neg hlen]
        simp [List.map_append, List.sum_append, hd]

theorem status_to_diff_totals (out : List Char)
    (fs : List Char → Option (List Char)) :
    (status_to_diff out fs).total_additions
      = ((status_to_diff out fs).files.map (fun f => f.additions)).sum ∧
    (status_to_diff out fs).total_deletions
      = ((status_to_diff out fs).files.map (fun f => f.deletions)).sum := by
  unfold status_to_diff
  exact statusFold_totals fs (pySplit '\n' (pyStrip out)) {} rfl rfl

theorem tool_call_diff_totals (messages : List SessionMessage) :
    (tool_call_diff messages).total_additions
      = ((tool_call_diff messages).files.map (fun f => f.additions)).sum ∧
    (tool_call_diff messages).total_deletions
      = ((tool_call_diff messages).files.map (fun f => f.deletions)).sum := by
  unfold tool_call_diff
  constructor <;>
    · simp only []
      induction tool_call_seen messages with
      | nil => rfl
      | cons kv rest ih => simpa using ih

theorem git_diff_totals (env : GitEnv) (d : CodeDiff)
    (h : git_diff env = Except.ok d) :
    d.total_additions = (d.files.map (fun f => f.additions)).sum ∧
    d.total_deletions = (d.files.map (fun f => f.deletions)).sum := by
  unfold git_diff at h
  by_cases h1 : ¬ env.isDir
  · rw [if_pos h1] at h
    exact absurd h (by simp)
  · rw [if_neg h1] at h
    by_cases h2 : ¬ env.revParseOk
    · rw [if_pos h2] at h
      exact absurd h (by simp)
    · rw [if_neg h2] at h
      simp only [] at h
      repeat' split at h
      all_goals first
        | exact Except.noConfusion h
        | (rw [Except.ok.injEq] at h; subst h; exact ⟨rfl, rfl⟩)
        | (rw [Except.ok.injEq] at h; subst h
           exact status_to_diff_totals _ env.fs)

/-- C6: every change set produced by the extraction entry point — parsed
unified diff, status synthesis, empty git result, or tool-call
reconstruction — has total_additions and total_deletions equal to the
sums of additions and deletions over its FileDiff entries. -/
theorem c6_changeset_totals (env : GitEnv) (messages : List SessionMessage) :
    (get_diff env messages).total_additions
      = ((get_diff env messages).files.map (fun f => f.additions)).sum ∧
    (get_diff env messages).total_deletions
      = ((get_diff env messages).files.map (fun f => f.deletions)).sum := by
  unfold get_diff
  cases hg : git_diff env with
  | ok d =>
    exact git_diff_totals env d hg
  | error e =>
    by_cases hm : messages ≠ []
    · rw [if_pos hm]
      exact tool_call_diff_totals messages
    · rw [if_neg hm]
      exact ⟨rfl, rfl⟩

/-! # Helper lemmas: the diff-size cap -/

theorem pySplit_of_not_mem (c : Char) (l : List Char) (h : c ∉ l) :
    pySplit c l = [l] := by
  induction l with
  | nil => rfl
  | cons a rest ih =>
    have ha : ¬ a = c := fun he => h (he ▸ List.mem_cons_self a rest)
    simp only [pySplit, if_neg ha]
    rw [ih (fun hm => h (List.mem_cons_of_mem a hm))]

theorem pySplitlines_of_not_mem (l : List Char) (h : '\n' ∉ l)
    (hne : l ≠ []) :
    pySplitlines l = [l] := by
  unfold pySplitlines
  rw [pySplit_of_not_mem '\n' l h]
  simp [hne]

theorem statusStep_line_f (fs : List Char → Option (List Char))
    (acc : StatusAcc) (hlt : acc.total_chars < MAX_DIFF_CHARS) :
    statusStep fs acc ['?', '?', ' ', 'f']
      = { files := acc.files ++
            [{ path := ['f'], status := "added",
               additions := (statusBody fs ['f']).2, deletions := 0,
               diff_text := (statusBody fs ['f']).1 }],
          total_add := acc.total_add + (statusBody fs ['f']).2,
          total_del := acc.total_del + 0,
          total_chars := acc.total_chars + (statusBody fs ['f']).1.length } := by
  unfold statusStep
  rw [if_neg (by decide)]
  simp only []
  have hcode : pyStrip (List.take 2 ['?', '?', ' ', 'f']) = "??".toList := rfl
  have hpath : pyStrip (List.drop 3 ['?', '?', ' ', 'f']) = ['f'] := rfl
  rw [hcode, hpath,
    if_pos (Or.inl (rfl : "??".toList = "??".toList)),
    if_pos (And.intro (Or.inl (rfl : "added" = "added")) hlt)]

theorem c7_not_mem_nl : '\n' ∉ List.replicate 32001 'a' := by
  intro hm
  rcases List.mem_replicate.mp hm with ⟨-, h2⟩
  exact absurd h2 (by decide)

theorem c7_rep_ne_nil : List.replicate 32001 'a' ≠ ([] : List Char) := by
  intro h
  have h2 := congrArg List.length h
  rw [List.length_replicate, List.length_nil] at h2
  exact absurd h2 (by decide)

theorem intercalate_single_nl (x : List Char) :
    List.intercalate ['\n'] [x] = x := by
  simp [List.intercalate]

theorem c7_body_eq : (statusBody capFs ['f']).1
    = synthDiffText ['f'] [('+' :: List.replicate 32001 'a')] := by
  have hfs : capFs ['f'] = some (List.replicate 32001 'a') := rfl
  unfold statusBody
  rw [hfs]
  simp only []
  rw [pySplitlines_of_not_mem _ c7_not_mem_nl c7_rep_ne_nil]
  rw [List.map_cons, List.map_nil]

theorem synthDiffText_f_len (r : List Char) :
    (synthDiffText ['f'] [('+' :: r)]).length = 51 + r.length := by
  unfold synthDiffText
  rw [intercalate_single_nl]
  have e1 : ("diff --git a/".toList).length = 13 := rfl
  have e2 : ((" b/".toList)).length = 3 := rfl
  have e3 : ("new file".toList).length = 8 := rfl
  have e4 : ("--- /dev/null".toList).length = 13 := rfl
  have e5 : ("+++ b/".toList).length = 6 := rfl
  simp only [List.length_append, List.length_cons, List.length_nil,
    e1, e2, e3, e4, e5]
  omega

theorem c7_body_len : (statusBody capFs ['f']).1.length = 32052 := by
  rw [c7_body_eq, synthDiffText_f_len, List.length_replicate]

theorem status_untracked_general (fs : List Char → Option (List Char))
    (hfs1 : (statusBody fs ['f']).1.length = 32052) :
    MAX_DIFF_CHARS < aggregateDiffLen (status_to_diff ['?','?',' ','f'] fs) ∧
    (status_to_diff ['?','?',' ','f'] fs).truncated = true := by
  unfold aggregateDiffLen status_to_diff
  simp only []
  rw [show pySplit '\n' (pyStrip ['?','?',' ','f']) = [['?','?',' ','f']]
      from rfl]
  rw [List.foldl_cons, List.foldl_nil, statusStep_line_f fs {} (by decide)]
  constructor
  · simp only [List.nil_append, List.map_cons, List.map_nil, List.sum_cons,
      List.sum_nil]
    rw [hfs1]
    norm_num [MAX_DIFF_CHARS]
  · apply decide_eq_true
    simp only []
    rw [hfs1]
    norm_num [MAX_DIFF_CHARS]

/-- Counterexample to C7: in the status-synthesis path, a single
untracked file of 32,001 characters produces a change set whose carried
aggregate diff text is 32,052 characters — strictly over the 32,000
character cap — while the truncated flag is set; the text is not cut
back to the cap. -/
theorem c7_cap_counterexample :
    MAX_DIFF_CHARS < aggregateDiffLen (get_diff capEnv []) ∧
    (get_diff capEnv []).truncated = true := by
  have hget : get_diff capEnv []
      = status_to_diff ['?', '?', ' ', 'f'] capFs := rfl
  rw [hget]
  exact status_untracked_general capFs c7_body_len

theorem length_intercalate_nl (ls : List (List Char)) :
    (List.intercalate ['\n'] ls).length = joinLen ls := by
  induction ls with
  | nil => simp [List.intercalate, joinLen]
  | cons l rest ih =>
    cases rest with
    | nil => simp [intercalate_single_nl, joinLen]
    | cons m rs =>
      have hstep : List.intercalate ['\n'] (l :: m :: rs)
          = l ++ ['\n'] ++ List.intercalate ['\n'] (m :: rs) := by
        simp [List.intercalate, List.intersperse]
      rw [hstep]
      simp [List.length_append, ih, joinLen]
      omega

theorem pySplit_ne_nil (c : Char) (l : List Char) : pySplit c l ≠ [] := by
  cases l with
  | nil => simp [pySplit]
  | cons a rest =>
    simp only [pySplit]
    by_cases h : a = c
    · simp [h]
    · rw [if_neg h]
      cases hp : pySplit c rest with
      | nil => simp
      | cons x xs => simp

theorem joinLen_pySplit (c : Char) (l : List Char) :
    joinLen (pySplit c l) = l.length := by
  induction l with
  | nil => simp [pySplit, joinLen]
  | cons a rest ih =>
    simp only [pySplit]
    by_cases h : a = c
    · rw [if_pos h]
      cases hp : pySplit c rest with
      | nil => exact absurd hp (pySplit_ne_nil c rest)
      | cons x xs =>
        rw [hp] at ih
        simp only [joinLen, List.length_cons, List.length_nil] at ih ⊢
        omega
    · rw [if_neg h]
      cases hp : pySplit c rest with
      | nil => exact absurd hp (pySplit_ne_nil c rest)
      | cons x xs =>
        rw [hp] at ih
        cases xs with
        | nil =>
          simp only [joinLen, List.length_cons] at ih ⊢
          omega
        | cons y ys =>
          simp only [joinLen, List.length_cons] at ih ⊢
          omega

theorem joinLen_append_single (cur : List (List Char)) (l : List Char) :
    joinLen (cur ++ [l]) ≤ joinLen cur + 1 + l.length := by
  induction cur with
  | nil => simp [joinLen]
  | cons x rest ih =>
    cases rest with
    | nil =>
      simp only [List.cons_append, List.nil_append, joinLen]
      omega
    | cons y ys =>
      simp only [List.cons_append, List.append_eq, joinLen] at ih ⊢
      omega

theorem build_file_diff_text_len (f : List Char) (cur : List (List Char)) :
    (build_file_diff f cur).diff_text.length = joinLen cur := by
  simp [build_file_diff, length_intercalate_nl]

theorem parseDiffLoop_agg (rem : List (List Char)) :
    ∀ (cf : Option (List Char)) (cur : List (List Char)),
    ((parseDiffLoop rem cf cur).map (fun f => f.diff_text.length)).sum
      ≤ (match cf with
         | none => joinLen rem
         | some _ => joinLen cur + joinLen ([] :: rem)) := by
  induction rem with
  | nil =>
    intro cf cur
    cases cf with
    | none => simp [parseDiffLoop]
    | some f => simp [parseDiffLoop, build_file_diff_text_len, joinLen]
  | cons l rest ih =>
    intro cf cur
    simp only [parseDiffLoop]
    by_cases hh : (("diff --git".toList).isPrefixOf l) = true
    · rw [if_pos hh]
      cases cf with
      | none =>
        have hb := ih (some ((regexBSlash l).getD ("unknown".toList))) [l]
        simp only [] at hb
        cases rest with
        | nil =>
          simp only [joinLen, List.length_cons, List.length_nil] at hb ⊢
          omega
        | cons r rs =>
          simp only [joinLen, List.length_cons, List.length_nil] at hb ⊢
          omega
      | some f =>
        have hb := ih (some ((regexBSlash l).getD ("unknown".toList))) [l]
        simp only [] at hb
        simp only [List.map_cons, List.sum_cons, build_file_diff_text_len]
        cases rest with
        | nil =>
          simp only [joinLen, List.length_cons, List.length_nil] at hb ⊢
          omega
        | cons r rs =>
          simp only [joinLen, List.length_cons, List.length_nil] at hb ⊢
          omega
    · rw [if_neg hh]
      cases cf with
      | none =>
        have hb := ih none cur
        simp only [] at hb
        cases rest with
        | nil =>
          simp only [joinLen] at hb ⊢
          omega
        | cons r rs =>
          simp only [joinLen] at hb ⊢
          omega
      | some f =>
        have hb := ih (some f) (cur ++ [l])
        have hc := joinLen_append_single cur l
        simp only [] at hb
        cases rest with
        | nil =>
          simp only [joinLen, List.length_cons, List.length_nil] at hb ⊢
          omega
        | cons r rs =>
          simp only [joinLen, List.length_cons, List.length_nil] at hb ⊢
          omega

/-- C7 as amended: in the unified-diff parsing path the carried
aggregate diff text never exceeds the 32,000-character cap (nor the raw
input length) and the truncated flag is set exactly when the raw diff
text exceeded the cap; in the status-synthesis path the truncated flag
is set exactly when the loop's accumulated character count reached the
cap, and a loop step whose accumulated count has already reached the cap
adds no further text — but text already accumulated is not cut back, so
the carried aggregate may exceed the cap (see the counterexample); the
tool-call path carries no diff text and never sets the flag. -/
theorem c7_cap_amended (d s : List Char) (fs : List Char → Option (List Char))
    (acc : StatusAcc) (line : List Char)
    (hfull : MAX_DIFF_CHARS ≤ acc.total_chars)
    (messages : List SessionMessage) :
    (aggregateDiffLen (parse_diff d) ≤ MAX_DIFF_CHARS ∧
      aggregateDiffLen (parse_diff d) ≤ d.length ∧
      (parse_diff d).truncated = decide (d.length > MAX_DIFF_CHARS)) ∧
    ((status_to_diff s fs).truncated
        = decide (statusAccChars s fs ≥ MAX_DIFF_CHARS) ∧
      (statusStep fs acc line).total_chars = acc.total_chars) ∧
    ((tool_call_diff messages).truncated = false ∧
      aggregateDiffLen (tool_call_diff messages) = 0) := by
  refine ⟨?_, ⟨rfl, ?_⟩, ⟨rfl, ?_⟩⟩
  · have hb := parseDiffLoop_agg
      (pySplit '\n' (if d.length > MAX_DIFF_CHARS
        then d.take MAX_DIFF_CHARS else d)) none []
    simp only [] at hb
    rw [joinLen_pySplit] at hb
    have hagg : aggregateDiffLen (parse_diff d)
        = ((parseDiffLoop (pySplit '\n' (if d.length > MAX_DIFF_CHARS
            then d.take MAX_DIFF_CHARS else d)) none []).map
              (fun f => f.diff_text.length)).sum := rfl
    have hlen : (if d.length > MAX_DIFF_CHARS
        then d.take MAX_DIFF_CHARS else d).length ≤ MAX_DIFF_CHARS
        ∧ (if d.length > MAX_DIFF_CHARS
            then d.take MAX_DIFF_CHARS else d).length ≤ d.length := by
      by_cases hgt : d.length > MAX_DIFF_CHARS
      · rw [if_pos hgt]
        simp only [List.length_take]
        omega
      · rw [if_neg hgt]
        omega
    exact ⟨by omega, by omega, rfl⟩
  · unfold statusStep
    by_cases hlen : line.length < 4
    · rw [if_pos hlen]
    · rw [if_neg hlen]
      simp only []
      rw [if_neg (fun hc => absurd hc.2 (not_lt.mpr hfull))]
      simp
  · unfold aggregateDiffLen tool_call_diff
    simp only []
    induction tool_call_seen messages with
    | nil => rfl
    | cons kv rest ih => simpa using ih

/-- Witness for C7 as amended: a loop step at an accumulated count that
already reached the cap leaves the count unchanged. -/
theorem c7_cap_amended_witness :
    (statusStep (fun _ => none) { total_chars := 32000 }
      ['?', '?', ' ', 'f']).total_chars = 32000 :=
  (c7_cap_amended [] [] (fun _ => none) { total_chars := 32000 }
    ['?', '?', ' ', 'f'] (by decide) []).2.1.2
